import Mathlib

/-!
Verification of the wfcommons benchmark assembler and local executor
(`wfcommons/wfbench/bench.py`) and of the file-generation step of the
workflowhub recipe (`workflowhub/generator/workflow/abstract_recipe.py`),
as a shallow embedding in Lean.

Conventions of the embedding:
* Python floats used for file size arithmetic are modelled exactly as
  rationals; Python `round` (banker's rounding, round-half-to-even) is
  modelled by `pyRound`.
* Python dicts keyed by task name are modelled as functions or as
  association lists built in iteration order (Python dicts preserve
  insertion order).
* Filesystem contents are modelled as lists of file names.
* Nondeterministic values (uuid4 names, sampled sizes) are modelled by
  explicit supply functions passed as parameters.
-/

/-- Link direction of a file record (`FileLink.INPUT` / `FileLink.OUTPUT`). -/
inductive WLink where
  | input
  | output
deriving DecidableEq, Repr

/-- A `File` record: name, size in bytes, link direction
(`wfcommons.common.File`). Sizes are Python ints, modelled as `Int`. -/
structure WFile where
  name : String
  size : Int
  link : WLink
deriving DecidableEq, Repr

/-- A `Task` record with the fields touched by `create_benchmark`:
name, category, sampled runtime, argument list, file manifest and
program reference. Runtime is a Python float, modelled as `Rat`. -/
structure WTask where
  name : String
  category : String
  runtime : Rat
  args : List String
  files : List WFile
  program : String
deriving DecidableEq, Repr

/-- The workflow graph consumed by `create_benchmark`: the ordered task
list (`self.workflow.tasks.values()`), and the `tasks_parents` /
`tasks_children` adjacency dictionaries keyed by task name. -/
structure Workflow where
  tasks : List WTask
  parents : String → List String
  children : String → List String

/-- Names of the tasks of a workflow, in task-list order. -/
def taskNames (w : Workflow) : List String :=
  w.tasks.map (fun t => t.name)

/-- Category lookup `self.workflow.tasks[name].category`; a missing name
(a `KeyError` in Python) is modelled by the junk value `""`. -/
def categoryOf (w : Workflow) (n : String) : String :=
  match w.tasks.find? (fun t => t.name = n) with
  | some t => t.category
  | none => ""

/-- Tasks with no parents (`if not parents` in `_calculate_input_files`). -/
def rootTasks (w : Workflow) : List WTask :=
  w.tasks.filter (fun t => w.parents t.name = [])

/-- Tasks with at least one parent. -/
def nonRootTasks (w : Workflow) : List WTask :=
  w.tasks.filter (fun t => ¬ w.parents t.name = [])

/-- Well-formedness of the workflow graph, as assumed by the spec: task
names are unique, the adjacency dictionaries mention only task names,
`tasks_parents` and `tasks_children` are mutually consistent, and
adjacency lists are duplicate-free. -/
def WFHyp (w : Workflow) : Prop :=
  (taskNames w).Nodup ∧
  (∀ t ∈ w.tasks, ∀ p ∈ w.parents t.name, p ∈ taskNames w) ∧
  (∀ t ∈ w.tasks, ∀ c ∈ w.children t.name, c ∈ taskNames w) ∧
  (∀ t ∈ w.tasks, ∀ u ∈ w.tasks, (t.name ∈ w.parents u.name ↔ u.name ∈ w.children t.name)) ∧
  (∀ t ∈ w.tasks, (w.parents t.name).Nodup) ∧
  (∀ t ∈ w.tasks, (w.children t.name).Nodup)

instance (w : Workflow) : Decidable (WFHyp w) := by
  unfold WFHyp; infer_instance

/-! ### Python `round` on exact rationals -/

/-- Python 3 round-half-to-even on exact rationals, computed on the
numerator/denominator representation. -/
def pyRound (q : Rat) : Int :=
  let f := q.floor
  let r2 := 2 * (q.num - f * (q.den : Int))
  if r2 < (q.den : Int) then f
  else if (q.den : Int) < r2 then f + 1
  else if f % 2 = 0 then f else f + 1

theorem pyRound_sub_abs_le (q : Rat) : |(pyRound q : Rat) - q| ≤ 1/2 := by
  unfold pyRound
  have hfq : ((q.floor : Int) : Rat) ≤ q := Rat.le_floor.mp (le_refl _)
  have hq1 : q < ((q.floor : Int) : Rat) + 1 := by
    by_contra hcon
    push_neg at hcon
    have h2 : ((q.floor + 1 : Int) : Rat) ≤ q := by push_cast; linarith
    have h3 : q.floor + 1 ≤ q.floor := Rat.le_floor.mpr h2
    omega
  have hd0 : (0 : Int) < (q.den : Int) := by exact_mod_cast q.den_pos
  have hdq : (0 : Rat) < ((q.den : Int) : Rat) := by exact_mod_cast hd0
  have hden_ne : ((q.den : Nat) : Rat) ≠ 0 := by
    exact_mod_cast q.den_pos.ne'
  have hnum : ((q.num : Int) : Rat) = q * ((q.den : Int) : Rat) := by
    have h : q * ((q.den : Nat) : Rat) = ((q.num : Int) : Rat) := by
      nth_rewrite 1 [← Rat.num_div_den q]
      exact div_mul_cancel₀ _ hden_ne
    push_cast
    push_cast at h
    linarith [h]
  by_cases hlt : 2 * (q.num - q.floor * (q.den : Int)) < (q.den : Int)
  · simp only [hlt, if_true]
    have hc : (2 : Rat) * (q - (q.floor : Rat)) * ((q.den : Int) : Rat) < ((q.den : Int) : Rat) := by
      have hcast : ((2 * (q.num - q.floor * (q.den : Int)) : Int) : Rat) < (((q.den : Int) : Int) : Rat) := by
        exact_mod_cast hlt
      push_cast at hcast
      push_cast [hnum] at hcast ⊢
      nlinarith [hcast]
    have hhalf : q - (q.floor : Rat) < 1/2 := by
      by_contra hcon
      push_neg at hcon
      have step := mul_le_mul_of_nonneg_right hcon (le_of_lt hdq)
      linarith
    rw [abs_le]
    constructor <;> linarith
  · by_cases hgt : (q.den : Int) < 2 * (q.num - q.floor * (q.den : Int))
    · simp only [hlt, hgt, if_false, if_true]
      have hc : ((q.den : Int) : Rat) < (2 : Rat) * (q - (q.floor : Rat)) * ((q.den : Int) : Rat) := by
        have hcast : (((q.den : Int) : Int) : Rat) < ((2 * (q.num - q.floor * (q.den : Int)) : Int) : Rat) := by
          exact_mod_cast hgt
        push_cast at hcast
        push_cast [hnum] at hcast ⊢
        nlinarith [hcast]
      have hhalf : 1/2 < q - (q.floor : Rat) := by
        by_contra hcon
        push_neg at hcon
        have step := mul_le_mul_of_nonneg_right hcon (le_of_lt hdq)
        linarith
      rw [abs_le]
      push_cast
      constructor <;> linarith
    · have heq2 : 2 * (q.num - q.floor * (q.den : Int)) = (q.den : Int) := le_antisymm (not_lt.mp hgt) (not_lt.mp hlt)
      have hc : (2 : Rat) * (q - (q.floor : Rat)) * ((q.den : Int) : Rat) = ((q.den : Int) : Rat) := by
        have hcast : ((2 * (q.num - q.floor * (q.den : Int)) : Int) : Rat) = (((q.den : Int) : Int) : Rat) := by
          exact_mod_cast heq2
        push_cast at hcast
        push_cast [hnum] at hcast ⊢
        nlinarith [hcast]
      have hhalf : q - (q.floor : Rat) = 1/2 := by
        have hne : ((q.den : Int) : Rat) ≠ 0 := ne_of_gt hdq
        have h3 : ((2 : Rat) * (q - (q.floor : Rat)) - 1) * ((q.den : Int) : Rat) = 0 := by ring_nf; linarith [hc]
        rcases mul_eq_zero.mp h3 with h4 | h4
        · linarith
        · exact absurd h4 hne
      simp only [hlt, hgt, if_false]
      by_cases hpar : q.floor % 2 = 0
      · simp only [hpar, if_true]
        rw [abs_le]
        constructor <;> linarith
      · simp only [hpar, if_false]
        rw [abs_le]
        push_cast
        constructor <;> linarith

/-! ### String pieces used by the assembler's naming conventions -/

/-- Suffix of every output file name. -/
def outputTxt : String := "_output.txt"

/-- Suffix of every root input file name. -/
def inputTxt : String := "_input.txt"

/-- Separator used in per-edge file names. -/
def usep : String := "_"

/-- Per-edge output file name `f"{producer}_{consumer}_output.txt"`. -/
def edgeName (p c : String) : String := p ++ usep ++ c ++ outputTxt

/-- Python `str` rendering of one dict entry `'key': value`. -/
def pyDictEntry (kv : String × Int) : String :=
  "\x27" ++ kv.1 ++ "\x27: " ++ toString kv.2

/-- Python `str` rendering of a `Dict[str, int]` (insertion order). -/
def pyDict (m : List (String × Int)) : String :=
  "\x7b" ++ String.intercalate (", ") (m.map pyDictEntry) ++ "\x7d"

/-- The single argument string `f"--out {outputs_file_size}"`. -/
def outArg (m : List (String × Int)) : String := "--out " ++ pyDict m

/-! ### `create_benchmark`: parameterization phase -/

/-- The benchmark program path `f"{this_dir.joinpath('wfbench.py')}"`,
modelled as a constant. -/
def wfbenchProgram : String := "wfbench.py"

/-- The parameter strings appended to `task.args`: CPU arguments (plus
lock-file paths) only when `cpu_work` is truthy, GPU argument only when
`gpu_work` is truthy. `percent_cpu`, `cpu_work` and `gpu_work` values are
modelled as already-rendered strings. -/
def paramArgs (percentCpu : String) (cpuWork gpuWork : Option String)
    (lockArgs : List String) : List String :=
  (match cpuWork with
   | some cw => ["--percent-cpu " ++ percentCpu, "--cpu-work " ++ cw] ++ lockArgs
   | none => []) ++
  (match gpuWork with
   | some gw => ["--gpu-work " ++ gw]
   | none => [])

/-- Lock-related arguments `--path-lock`/`--path-cores`, present exactly
when a lock/cores path pair is available. -/
def lockArgList : Option (String × String) → List String
  | some lc => ["--path-lock " ++ lc.1, "--path-cores " ++ lc.2]
  | none => []

/-- The per-task parameterization performed by `create_benchmark` before
the data phase: `task.runtime = 0`, `task.files = []`,
`task.program = .../wfbench.py`, `task.args = [task.name] + params`. -/
def setTaskParams (percentCpu : String) (cpuWork gpuWork : Option String)
    (lock : Option (String × String)) (t : WTask) : WTask :=
  { t with
    runtime := 0
    files := []
    program := wfbenchProgram
    args := t.name :: paramArgs percentCpu cpuWork gpuWork (lockArgList lock) }

/-! ### `create_benchmark`: data phase -/

/-- `data` argument of `create_benchmark`: absent, a per-category mapping
(dict values already converted to ints), or a total footprint in MB. -/
inductive DataSpec where
  | noData
  | perCat (m : String → Int)
  | total (mb : Int)

/-- `_output_files` restricted to one task: the childless case maps the
task's own name to its own category size; otherwise each child is mapped
to the *child's* category size. -/
def output_files_for (w : Workflow) (m : String → Int) (t : WTask) :
    List (String × Int) :=
  if w.children t.name = [] then [(t.name, m t.category)]
  else (w.children t.name).map (fun c => (c, m (categoryOf w c)))

/-- The `input_files[child]` dict built by `_add_input_files` in
per-category mode: pairs `(parent, size)` collected, in task order, from
every task whose `_output_files` entry mentions `child` as a key. -/
def input_files_entries (w : Workflow) (m : String → Int) (child : String) :
    List (String × Int) :=
  w.tasks.foldl
    (fun acc p =>
      acc ++ ((output_files_for w m p).filter (fun kv => kv.1 = child)).map
        (fun kv => (p.name, kv.2)))
    []

/-- Per-category mode, argument step: extend `task.args` with the single
string `f"--out {outputs_file_size}"`. -/
def addOutArgPerCat (w : Workflow) (m : String → Int) (t : WTask) : WTask :=
  { t with args := t.args ++
      [outArg ((output_files_for w m t).map (fun kv => (edgeName t.name kv.1, kv.2)))] }

/-- Per-category mode, `_add_output_files`: one OUTPUT record per
`_output_files` entry, named `f"{task.name}_{child}_output.txt"`. -/
def addOutputsPerCat (w : Workflow) (m : String → Int) (t : WTask) : WTask :=
  { t with files := t.files ++ ((output_files_for w m t).map
      (fun kv => WFile.mk (edgeName t.name kv.1) kv.2 WLink.output)) }

/-- Per-category mode, `_add_input_files`: a root task gets one INPUT
record `f"{task.name}_input.txt"` sized by its own category; a non-root
task gets one INPUT record `f"{parent}_{task.name}_output.txt"` per entry
of `input_files[task.name]`; the file names are also appended to
`task.args`. -/
def addInputsPerCat (w : Workflow) (m : String → Int) (t : WTask) : WTask :=
  if w.parents t.name = [] then
    { t with
      files := t.files ++ [WFile.mk (t.name ++ inputTxt) (m t.category) WLink.input]
      args := t.args ++ [t.name ++ inputTxt] }
  else
    { t with
      files := t.files ++ ((input_files_entries w m t.name).map
        (fun kv => WFile.mk (edgeName kv.1 t.name) kv.2 WLink.input))
      args := t.args ++ ((input_files_entries w m t.name).map
        (fun kv => edgeName kv.1 t.name)) }

/-- `_calculate_input_files`: counts root tasks (`tasks_need_input`) and
returns `(tasks_need_input, tasks_need_input * 2 + tasks_dont_need_input)`. -/
def calculateInputFiles (w : Workflow) : Nat × Nat :=
  let counts := w.tasks.foldl
    (fun (acc : Nat × Nat) t =>
      if w.parents t.name = [] then (acc.1 + 1, acc.2) else (acc.1, acc.2 + 1))
    (0, 0)
  (counts.1, counts.1 * 2 + counts.2)

/-- Uniform-footprint mode, all per-task mutations: the `--out` argument,
one OUTPUT record `f"{task.name}_output.txt"`, and INPUT records — for a
root `f"{task.name}_input.txt"`, otherwise `f"{parent}_output.txt"` per
parent — every record sized `fs`. -/
def uniformTask (w : Workflow) (fs : Int) (t : WTask) : WTask :=
  let t1 : WTask := { t with args := t.args ++ [outArg [(t.name ++ outputTxt, fs)]] }
  let t2 : WTask := { t1 with files := t1.files ++ [WFile.mk (t.name ++ outputTxt) fs WLink.output] }
  if w.parents t.name = [] then
    { t2 with
      files := t2.files ++ [WFile.mk (t.name ++ inputTxt) fs WLink.input]
      args := t2.args ++ [t.name ++ inputTxt] }
  else
    { t2 with
      files := t2.files ++ ((w.parents t.name).map
        (fun p => WFile.mk (p ++ outputTxt) fs WLink.input))
      args := t2.args ++ ((w.parents t.name).map (fun p => p ++ outputTxt)) }

/-- The uniform file size `round(data * 1000000 / num_total_files)`,
with the float division modelled exactly. -/
def uniformFileSize (w : Workflow) (mb : Int) : Int :=
  pyRound (Rat.divInt (mb * 1000000) ((calculateInputFiles w).2 : Int))

/-- The whole data phase of `create_benchmark`, per task. The source
applies each step to every task in separate loops; since each loop
iteration mutates only its own task (reading only immutable graph data),
the loops commute into one map per task. -/
def dataPhaseTask (w : Workflow) (data : DataSpec) (t : WTask) : WTask :=
  match data with
  | DataSpec.noData => t
  | DataSpec.perCat m => addInputsPerCat w m (addOutputsPerCat w m (addOutArgPerCat w m t))
  | DataSpec.total mb => uniformTask w (uniformFileSize w mb) t

/-- The JSON instance path
`save_dir / f"{workflow.name.lower()}-{num_tasks}.json"`. -/
def mkJsonPath (saveDir wfName : String) (numTasks : Nat) : String :=
  saveDir ++ "/" ++ wfName.toLower ++ "-" ++ toString numTasks ++ ".json"

/-- Result of `create_benchmark`: the returned JSON path, the mutated
tasks, and the root input data files materialized on disk
(`_generate_data_for_root_nodes` ensures one `f"{task.name}_input.txt"`
per root exists; files already present are kept as-is). -/
structure BenchResult where
  jsonPath : String
  tasks : List WTask
  written : List String
deriving DecidableEq, Repr

/-- `create_benchmark` with a successfully handled lock phase (the lock
argument pair is `some` when lock files were requested and created):
parameterize every task, run the data phase, materialize root inputs
(only when `data` was given), write and return the JSON path. -/
def createBenchmark (w : Workflow) (saveDir wfName : String) (numTasks : Nat)
    (percentCpu : String) (cpuWork gpuWork : Option String)
    (lock : Option (String × String)) (data : DataSpec) : BenchResult :=
  { jsonPath := mkJsonPath saveDir wfName numTasks
    tasks := w.tasks.map
      (fun t => dataPhaseTask w data (setTaskParams percentCpu cpuWork gpuWork lock t))
    written :=
      match data with
      | DataSpec.noData => []
      | _ => (rootTasks w).map (fun t => saveDir ++ "/" ++ t.name ++ inputTxt) }

/-! ### Lock-file phase and its failure mode (exception layer) -/

/-- The Python exceptions relevant to the modelled paths. -/
inductive PyError where
  | nameError
deriving DecidableEq, Repr

/-- Outcome of the lock-file block: not requested (`lock_files_folder`
falsy), or requested with the local variables `lock`/`cores` bound
(`mkdir` succeeded; a later failure of `open` is caught after binding),
or requested with `mkdir` raising before `lock`/`cores` were assigned
(the exception is caught and only a warning is logged). -/
inductive LockState where
  | notRequested
  | bound (lockPath coresPath : String)
  | unbound
deriving DecidableEq, Repr

/-- The lock-file block of `create_benchmark`: given the requested folder
and whether its `mkdir` succeeds. -/
def lockPhase : Option String → Bool → LockState
  | none, _ => LockState.notRequested
  | some f, true => LockState.bound (f ++ "/cores.txt.lock") (f ++ "/cores.txt")
  | some _, false => LockState.unbound

/-- The lock/cores path pair available to the argument loop. -/
def lockPair : LockState → Option (String × String)
  | LockState.bound l c => some (l, c)
  | _ => none

/-- The parameterization of one task in the argument loop, with Python
name resolution made explicit: when `cpu_work` is truthy and the lock
folder was requested but `mkdir` raised, the f-string
`f"--path-lock {lock}"` references the never-assigned local `lock` and
raises `NameError`. -/
def setTaskParamsE (pc : String) (cw gw : Option String) (ls : LockState)
    (t : WTask) : Except PyError WTask :=
  match cw, ls with
  | some _, LockState.unbound => Except.error PyError.nameError
  | _, _ => Except.ok (setTaskParams pc cw gw (lockPair ls) t)

/-- `create_benchmark` including the lock-file phase and the possibility
of an uncaught `NameError` escaping the argument loop. -/
def createBenchmarkE (w : Workflow) (saveDir wfName : String) (numTasks : Nat)
    (pc : String) (cw gw : Option String) (lockFolder : Option String)
    (mkdirOk : Bool) (data : DataSpec) : Except PyError BenchResult :=
  let ls := lockPhase lockFolder mkdirOk
  match w.tasks.mapM (setTaskParamsE pc cw gw ls) with
  | Except.error e => Except.error e
  | Except.ok ts =>
      Except.ok
        { jsonPath := mkJsonPath saveDir wfName numTasks
          tasks := ts.map (dataPhaseTask w data)
          written :=
            match data with
            | DataSpec.noData => []
            | _ => (rootTasks w).map (fun t => saveDir ++ "/" ++ t.name ++ inputTxt) }

/-! ### The local executor (`run`) -/

/-- `assigning_correct_files`: the names of the INPUT-linked file records
of a task (bare names, no path resolution). -/
def assigningCorrectFiles (t : WTask) : List String :=
  (t.files.filter (fun f => f.link = WLink.input)).map (fun f => f.name)

/-- The spawn command built by `run` for one task: list-membership of the
exact string `"--out"` in the recorded arguments decides whether the
input file names are appended. -/
def buildProgram (t : WTask) : List String :=
  if "--out" ∈ t.args then
    ["time", "python", t.program] ++ t.args ++ assigningCorrectFiles t
  else
    ["time", "python", t.program] ++ t.args

/-- A task is ready when every INPUT-linked file name exists (the
filesystem is modelled as the list of existing names). -/
def readyToExecute (fs : List String) (t : WTask) : Bool :=
  (t.files.filter (fun f => f.link = WLink.input)).all (fun f => fs.contains f.name)

/-- Executor loop state: the `has_executed` marker set (in insertion
order) and the spawned processes, each tagged by its task name. -/
structure ExecState where
  executed : List String
  procs : List (String × List String)
deriving DecidableEq, Repr

/-- One task visit in a poll cycle: skip if already launched, skip if not
ready, otherwise mark launched and spawn. -/
def pollStep (fs : List String) (st : ExecState) (t : WTask) : ExecState :=
  if t.name ∈ st.executed then st
  else if readyToExecute fs t then
    { executed := st.executed ++ [t.name]
      procs := st.procs ++ [(t.name, buildProgram t)] }
  else st

/-- One poll cycle: visit every task in list order against the filesystem
snapshot of this cycle. -/
def pollCycle (fs : List String) (tasks : List WTask) (st : ExecState) : ExecState :=
  tasks.foldl (pollStep fs) st

/-- The `while len(has_executed) < len(tasks)` poll loop; `fsSeq k` is the
filesystem snapshot seen by cycle `k` (files written by processes spawned
in cycle `k` are only visible from cycle `k+1` on), and `fuel` bounds the
number of cycles so the function is total even on graphs on which the
Python loop would spin forever. -/
def runLoop (tasks : List WTask) (fsSeq : Nat → List String) :
    Nat → Nat → ExecState → ExecState
  | 0, _, st => st
  | fuel + 1, k, st =>
    if st.executed.length < tasks.length then
      runLoop tasks fsSeq fuel (k + 1) (pollCycle (fsSeq k) tasks st)
    else st

/-- `for proc in procs: proc.wait()` — every spawned process is waited
on, in spawn order. -/
def waitAll (procs : List (String × List String)) : List (String × List String) :=
  procs.foldl (fun acc p => acc ++ [p]) []

/-! ### `cleanup_sys_files` and the run's filesystem frame -/

/-- The glob pattern `*input*.txt`: since `"input"` shares no character
with `"."`/`"t"`/`"x"` in a way that lets it overlap a final `".txt"`,
the pattern holds exactly when the name contains `"input"` and ends with
`".txt"`. -/
def inputGlob (s : String) : Bool :=
  decide ("input".data <:+: s.data) && decide (".txt".data <:+ s.data)

/-- The glob pattern `*output.txt`: the name ends with `"output.txt"`. -/
def outputGlob (s : String) : Bool :=
  decide ("output.txt".data <:+ s.data)

/-- `cleanup_sys_files`: removes every file in the working directory that
matches `*input*.txt` or `*output.txt`. -/
def cleanupSysFiles (dir : List String) : List String :=
  dir.filter (fun f => !(inputGlob f || outputGlob f))

/-- Result of one `run` call: the loop state, the processes waited on,
and the working-directory contents after cleanup. -/
structure RunResult where
  final : ExecState
  waited : List (String × List String)
  finalDir : List String
deriving DecidableEq, Repr

/-- `run`: on the normal path, poll until every task launched, wait on
every process, then `cleanup_sys_files()`; on the exception path
(`crashed`), kill helpers, `cleanup_sys_files()`, re-raise. `dirAtEnd`
is the working-directory listing just before cleanup. -/
def runExec (tasks : List WTask) (fsSeq : Nat → List String) (fuel : Nat)
    (dirAtEnd : List String) (crashed : Bool) : RunResult :=
  if crashed then
    { final := ExecState.mk [] [], waited := [], finalDir := cleanupSysFiles dirAtEnd }
  else
    let st := runLoop tasks fsSeq fuel 0 (ExecState.mk [] [])
    { final := st, waited := waitAll st.procs, finalDir := cleanupSysFiles dirAtEnd }

/-! ### Recipe file generation (`abstract_recipe.py`) -/

/-- Index of the last occurrence of a character, if any. -/
def lastIdxOf (c : Char) : List Char → Option Nat
  | [] => none
  | x :: xs =>
    match lastIdxOf c xs with
    | some i => some (i + 1)
    | none => if x = c then some 0 else none

/-- The extension part of `os.path.splitext` for a plain file name (no
separators): the segment from the last dot on, unless every character
before that dot is itself a dot. -/
def splitextExt (s : String) : String :=
  match lastIdxOf '.' s.data with
  | none => ""
  | some i =>
    if (s.data.take i).any (fun ch => ch != '.') then String.mk (s.data.drop i) else ""

/-- `path.splitext(f.name)[1] if '.' in f.name else f.name`. -/
def extOf (name : String) : String :=
  if '.' ∈ name.data then splitextExt name else name

/-- The `extension_list` computed by `_generate_files` before its loop:
extensions of the files already recorded for the given link direction. -/
def extensionList (files : List WFile) (link : WLink) : List String :=
  (files.filter (fun f => f.link = link)).map (fun f => extOf f.name)

/-- State of the generation loop: the accumulated file list and a counter
indexing the fresh-name supply (one `uuid4` per generated file). -/
structure GenState where
  files : List WFile
  ctr : Nat
deriving DecidableEq, Repr

/-- `_generate_file`: fresh name (uuid) plus extension, sampled size. -/
def generateFile (freshName : Nat → String) (sizeOf : String → Int)
    (link : WLink) (n : Nat) (e : String) : WFile :=
  WFile.mk (freshName n ++ e) (sizeOf e) link

/-- One iteration of the `for extension in recipe` loop: skip extensions
already present in `extension_list`, otherwise append `num_files` fresh
files of that extension. -/
def genStep (extList : List String) (numOf : String → Nat)
    (freshName : Nat → String) (sizeOf : String → Int) (link : WLink)
    (st : GenState) (e : String) : GenState :=
  if e ∈ extList then st
  else
    { files := st.files ++ ((List.range (numOf e)).map
        (fun i => generateFile freshName sizeOf link (st.ctr + i) e))
      ctr := st.ctr + numOf e }

/-- `_generate_files`: starting from the files already recorded for the
job, append fresh files for every recipe extension not present in the
`extension_list` snapshot taken before the loop. `numOf` resolves
`num_files` from the optional `files_recipe`. -/
def generate_files (files0 : List WFile) (recipe : List String) (link : WLink)
    (numOf : String → Nat) (freshName : Nat → String) (sizeOf : String → Int) :
    List WFile :=
  (recipe.foldl (genStep (extensionList files0 link) numOf freshName sizeOf link)
    (GenState.mk files0 0)).files

/-! ### String helper lemmas -/

theorem strData_append (s t : String) : (s ++ t).data = s.data ++ t.data := rfl

theorem strExt {s t : String} (h : s.data = t.data) : s = t := by
  cases s
  cases t
  exact congrArg String.mk h

theorem listAppend_ne_of_rev_take (k : Nat) {s t a b : List Char}
    (hs : k ≤ s.length) (ht : k ≤ t.length)
    (hne : ¬ s.reverse.take k = t.reverse.take k) : ¬ a ++ s = b ++ t := by
  intro h
  apply hne
  have h2 : (a ++ s).reverse = (b ++ t).reverse := by rw [h]
  rw [List.reverse_append, List.reverse_append] at h2
  have h3 := congrArg (List.take k) h2
  rw [List.take_append_of_le_length (by simpa using hs),
      List.take_append_of_le_length (by simpa using ht)] at h3
  exact h3

theorem strAppend_ne_of_rev_take (k : Nat) (s t : String) {a b : String}
    (hs : k ≤ s.data.length) (ht : k ≤ t.data.length)
    (hne : ¬ s.data.reverse.take k = t.data.reverse.take k) : ¬ a ++ s = b ++ t := by
  intro h
  have h2 : (a ++ s).data = (b ++ t).data := by rw [h]
  rw [strData_append, strData_append] at h2
  exact listAppend_ne_of_rev_take k hs ht hne h2

/-- An output-suffixed name never equals an input-suffixed name. -/
theorem outName_ne_inName (a b : String) : ¬ a ++ outputTxt = b ++ inputTxt :=
  strAppend_ne_of_rev_take 10 outputTxt inputTxt (by decide) (by decide) (by decide)

theorem strAppend_right_cancel {s t c : String} (h : s ++ c = t ++ c) : s = t := by
  apply strExt
  have h2 : s.data ++ c.data = t.data ++ c.data := by
    rw [← strData_append, ← strData_append, h]
  exact List.append_cancel_right h2

theorem strLength_append (s t : String) : (s ++ t).length = s.length + t.length := by
  show (s ++ t).data.length = s.data.length + t.data.length
  rw [strData_append, List.length_append]

/-! ### Concrete example workflows used by evaluations and witnesses -/

/-- Root task of the two-task chain `A → B`. -/
def taskA : WTask := ⟨"A", "catA", 1, [], [], "gen"⟩

/-- Non-root leaf task of the two-task chain `A → B`. -/
def taskB : WTask := ⟨"B", "catB", 1, [], [], "gen"⟩

/-- The two-task chain `A → B`: `A` is a root, `B` a non-root leaf. -/
def wAB : Workflow :=
  ⟨[taskA, taskB],
    fun n => if n = "B" then ["A"] else [],
    fun n => if n = "A" then ["B"] else []⟩

/-- A per-category data mapping for `wAB`. -/
def dataAB : String → Int := fun c => if c = "catB" then 5 else 3

/-- A task as built by the generator, carrying sampled runtime, an
argument list, a file record and a program reference. -/
def builderTask : WTask := ⟨"T", "catT", 7, ["orig"], [⟨"builder.dat", 4, WLink.output⟩], "bprog"⟩

/-- Single-task workflow around `builderTask`. -/
def wT : Workflow := ⟨[builderTask], fun _ => [], fun _ => []⟩

/-! ### Claim C1 -/

/-- Claim C1 (code bug): in per-category mode the leaf self-entry of
`_output_files` leaks into the `input_files` dict of `_add_input_files`,
so the non-root leaf `B` of `A → B` declares the input file
`"B_B_output.txt"` — its own output — while its only parent `A` declares
only `"A_B_output.txt"` as output. The declared input therefore does not
equal the parent's output for the edge, violating the dependency
contract (the executor would wait forever for a file only `B` itself
produces). -/
theorem C1_self_input_code_bug :
    ((createBenchmark wAB ("sv") ("wf") 2 ("0.6") none none none (DataSpec.perCat dataAB)).tasks.map
        (fun t => (t.files.filter (fun f => f.link = WLink.input)).map (fun f => f.name)))
      = [["A_input.txt"], ["A_B_output.txt", "B_B_output.txt"]] ∧
    ((createBenchmark wAB ("sv") ("wf") 2 ("0.6") none none none (DataSpec.perCat dataAB)).tasks.map
        (fun t => (t.files.filter (fun f => f.link = WLink.output)).map (fun f => f.name)))
      = [["A_B_output.txt"], ["B_B_output.txt"]] ∧
    wAB.parents ("B") = ["A"] ∧ wAB.parents ("A") = [] := by
  decide

/-! ### Claim C8 -/

/-- Claim C8 (code bug): when the lock-folder `mkdir` raises, the locals
`lock`/`cores` stay unbound; with `cpu_work` set the argument loop then
raises `NameError` and `create_benchmark` does not complete — against
the claim (and the code's own logged instruction to create the files
manually and continue). Without `cpu_work`, or when `mkdir` succeeds,
the run does complete. -/
theorem C8_lock_unbound_code_bug :
    createBenchmarkE wAB ("sv") ("wf") 2 ("0.6") (some ("100")) none (some ("lockdir")) false DataSpec.noData
      = Except.error PyError.nameError ∧
    (createBenchmarkE wAB ("sv") ("wf") 2 ("0.6") none none (some ("lockdir")) false DataSpec.noData).isOk = true ∧
    (createBenchmarkE wAB ("sv") ("wf") 2 ("0.6") (some ("100")) none (some ("lockdir")) true DataSpec.noData).isOk = true := by
  exact ⟨rfl, rfl, rfl⟩

/-! ### Claim C6 -/

/-- Claim C6 counterexample: the parameterization phase of
`create_benchmark` does not merely append — it overwrites the
builder-sampled runtime with 0 and replaces the builder-attached file
records with an empty manifest. -/
theorem C6_reset_counterexample :
    ((createBenchmark wT ("sv") ("wf") 1 ("0.6") none none none DataSpec.noData).tasks.map
        (fun t => t.runtime)) = [0] ∧
    ¬ builderTask.runtime = 0 ∧
    ((createBenchmark wT ("sv") ("wf") 1 ("0.6") none none none DataSpec.noData).tasks.map
        (fun t => t.files)) = [[]] ∧
    ¬ builderTask.files = [] := by
  decide

/-- Claim C6 as amended: the parameterization phase overwrites runtime
(to 0), program, and args (rebuilt as `[name] ++ params`), and clears the
file manifest — its result is independent of the builder's runtime, args,
files and program — while the subsequent data phase mutates a task only
by appending to args and files, preserving name, category, runtime and
program. -/
theorem C6_amended_overwrite_then_append :
    (∀ (pc : String) (cw gw : Option String) (lk : Option (String × String)) (t : WTask)
        (r : Rat) (a : List String) (f : List WFile) (p : String),
      setTaskParams pc cw gw lk { t with runtime := r, args := a, files := f, program := p }
        = setTaskParams pc cw gw lk t ∧
      (setTaskParams pc cw gw lk t).runtime = 0 ∧
      (setTaskParams pc cw gw lk t).files = [] ∧
      (setTaskParams pc cw gw lk t).program = wfbenchProgram ∧
      (setTaskParams pc cw gw lk t).args = t.name :: paramArgs pc cw gw (lockArgList lk) ∧
      (setTaskParams pc cw gw lk t).name = t.name ∧
      (setTaskParams pc cw gw lk t).category = t.category) ∧
    (∀ (w : Workflow) (data : DataSpec) (t : WTask),
      (dataPhaseTask w data t).name = t.name ∧
      (dataPhaseTask w data t).category = t.category ∧
      (dataPhaseTask w data t).runtime = t.runtime ∧
      (dataPhaseTask w data t).program = t.program ∧
      (∃ a2, (dataPhaseTask w data t).args = t.args ++ a2) ∧
      (∃ f2, (dataPhaseTask w data t).files = t.files ++ f2)) := by
  constructor
  · intro pc cw gw lk t r a f p
    exact ⟨rfl, rfl, rfl, rfl, rfl, rfl, rfl⟩
  · intro w data t
    cases data with
    | noData =>
      exact ⟨rfl, rfl, rfl, rfl, ⟨[], by simp [dataPhaseTask]⟩, ⟨[], by simp [dataPhaseTask]⟩⟩
    | perCat m =>
      by_cases hp : w.parents t.name = [] <;>
        refine ⟨?_, ?_, ?_, ?_, ?_, ?_⟩ <;>
        simp [dataPhaseTask, addInputsPerCat, addOutputsPerCat, addOutArgPerCat, hp]
    | total mb =>
      by_cases hp : w.parents t.name = [] <;>
        refine ⟨?_, ?_, ?_, ?_, ?_, ?_⟩ <;>
        simp [dataPhaseTask, uniformTask, hp]

/-! ### Claim C4 -/

/-- Claim C4 counterexample: in uniform mode every task's recorded
arguments contain the output-size map (as the single string produced by
`outArg`) and every task has declared input files, yet the spawn command
is exactly `["time", "python", program] ++ args` — the executor's
`"--out" in arguments` membership test never fires, so no input file
paths (absolute or otherwise) are appended. -/
theorem C4_no_append_counterexample :
    ((createBenchmark wAB ("sv") ("wf") 2 ("0.6") none none none (DataSpec.total 3)).tasks.map
        (fun t => t.args))
      = [["A", outArg [("A_output.txt", 1000000)], "A_input.txt"],
         ["B", outArg [("B_output.txt", 1000000)], "A_output.txt"]] ∧
    ((createBenchmark wAB ("sv") ("wf") 2 ("0.6") none none none (DataSpec.total 3)).tasks.map
        assigningCorrectFiles)
      = [["A_input.txt"], ["A_output.txt"]] ∧
    ((createBenchmark wAB ("sv") ("wf") 2 ("0.6") none none none (DataSpec.total 3)).tasks.map
        buildProgram)
      = ((createBenchmark wAB ("sv") ("wf") 2 ("0.6") none none none (DataSpec.total 3)).tasks.map
        (fun t => ["time", "python", t.program] ++ t.args)) := by
  decide

theorem six_le_len_append (lit v : String) (h : 6 ≤ lit.length) :
    6 ≤ (lit ++ v).length := by
  rw [strLength_append]
  omega

theorem six_le_len_append_right (v lit : String) (h : 6 ≤ lit.length) :
    6 ≤ (v ++ lit).length := by
  rw [strLength_append]
  omega

/-- Every parameter string is at least 6 characters long (each starts
with a flag literal of length ≥ 11). -/
theorem paramArgs_length (pc : String) (cw gw : Option String)
    (lk : Option (String × String)) :
    ∀ a ∈ paramArgs pc cw gw (lockArgList lk), 6 ≤ a.length := by
  intro a ha
  cases cw with
  | none =>
    cases gw with
    | none => simp [paramArgs] at ha
    | some g =>
      simp [paramArgs] at ha
      subst ha
      exact six_le_len_append _ _ (by decide)
  | some c =>
    cases gw with
    | none =>
      cases lk with
      | none =>
        simp [paramArgs, lockArgList] at ha
        rcases ha with rfl | rfl <;> exact six_le_len_append _ _ (by decide)
      | some l =>
        simp [paramArgs, lockArgList] at ha
        rcases ha with rfl | rfl | rfl | rfl <;> exact six_le_len_append _ _ (by decide)
    | some g =>
      cases lk with
      | none =>
        simp [paramArgs, lockArgList] at ha
        rcases ha with rfl | rfl | rfl <;> exact six_le_len_append _ _ (by decide)
      | some l =>
        simp [paramArgs, lockArgList] at ha
        rcases ha with rfl | rfl | rfl | rfl | rfl <;> exact six_le_len_append _ _ (by decide)

/-- Every argument the data phase appends is at least 6 characters long
(`--out ` plus a dict, or a file name ending in a ≥ 10-character
suffix). -/
theorem dataPhase_args_choice (w : Workflow) (data : DataSpec) (u : WTask) :
    ∀ x ∈ (dataPhaseTask w data u).args, x ∈ u.args ∨ 6 ≤ x.length := by
  intro x hx
  cases data with
  | noData => exact Or.inl hx
  | perCat m =>
    by_cases hp : w.parents u.name = []
    · simp [dataPhaseTask, addInputsPerCat, addOutputsPerCat, addOutArgPerCat, hp] at hx
      rcases hx with h | rfl | rfl
      · exact Or.inl h
      · exact Or.inr (by rw [outArg]; exact six_le_len_append _ _ (by decide))
      · exact Or.inr (six_le_len_append_right _ _ (by decide))
    · simp [dataPhaseTask, addInputsPerCat, addOutputsPerCat, addOutArgPerCat, hp] at hx
      rcases hx with h | rfl | ⟨kv, hkv, rfl⟩
      · exact Or.inl h
      · exact Or.inr (by rw [outArg]; exact six_le_len_append _ _ (by decide))
      · exact Or.inr (by rw [edgeName]; exact six_le_len_append_right _ _ (by decide))
  | total mb =>
    by_cases hp : w.parents u.name = []
    · simp [dataPhaseTask, uniformTask, hp] at hx
      rcases hx with h | rfl | rfl
      · exact Or.inl h
      · exact Or.inr (by rw [outArg]; exact six_le_len_append _ _ (by decide))
      · exact Or.inr (six_le_len_append_right _ _ (by decide))
    · simp [dataPhaseTask, uniformTask, hp] at hx
      rcases hx with h | rfl | ⟨p, hpmem, rfl⟩
      · exact Or.inl h
      · exact Or.inr (by rw [outArg]; exact six_le_len_append _ _ (by decide))
      · exact Or.inr (six_le_len_append_right _ _ (by decide))

/-- Claim C4 as amended: for every task produced by `create_benchmark`
(whatever the data mode), the literal string `"--out"` is never an
element of the argument list — the output-size map lives inside a single
longer argument string — so the executor spawns every such task with
exactly its recorded arguments and appends no input file paths. -/
theorem C4_amended_no_out_element (w : Workflow) (sd wfn : String) (nt : Nat)
    (pc : String) (cw gw : Option String) (lk : Option (String × String))
    (data : DataSpec) (hname : ∀ t ∈ w.tasks, ¬ t.name = "--out") :
    ∀ t ∈ (createBenchmark w sd wfn nt pc cw gw lk data).tasks,
      "--out" ∉ t.args ∧ buildProgram t = ["time", "python", t.program] ++ t.args := by
  intro t ht
  simp only [createBenchmark, List.mem_map] at ht
  obtain ⟨t0, ht0, rfl⟩ := ht
  have hu : (setTaskParams pc cw gw lk t0).args
      = t0.name :: paramArgs pc cw gw (lockArgList lk) := rfl
  have hmem : "--out" ∉ (dataPhaseTask w data (setTaskParams pc cw gw lk t0)).args := by
    intro hx
    rcases dataPhase_args_choice w data (setTaskParams pc cw gw lk t0) _ hx with h | h
    · rw [hu] at h
      rcases List.mem_cons.mp h with h1 | h1
      · exact hname t0 ht0 h1.symm
      · have := paramArgs_length pc cw gw lk _ h1
        exact absurd this (by decide)
    · exact absurd h (by decide)
  refine ⟨hmem, ?_⟩
  unfold buildProgram
  rw [if_neg hmem]

/-- Claim C4 amended, witness: the non-root task of `wAB` in uniform
mode is spawned with exactly its recorded arguments. -/
theorem C4_amended_witness :
    "--out" ∉ (dataPhaseTask wAB (DataSpec.total 3)
        (setTaskParams ("0.6") none none none taskB)).args ∧
    buildProgram (dataPhaseTask wAB (DataSpec.total 3)
        (setTaskParams ("0.6") none none none taskB))
      = ["time", "python",
          (dataPhaseTask wAB (DataSpec.total 3)
            (setTaskParams ("0.6") none none none taskB)).program]
        ++ (dataPhaseTask wAB (DataSpec.total 3)
            (setTaskParams ("0.6") none none none taskB)).args :=
  C4_amended_no_out_element wAB ("sv") ("wf") 2 ("0.6") none none none
    (DataSpec.total 3) (by decide) _ (by decide)

/-! ### Claim C10 -/

/-- Claim C10: with `data=None` both `isinstance` branches are skipped:
the returned JSON path is still produced, no root input data file is
materialized, and every task keeps an empty file manifest and exactly
the arguments `[task.name] ++ parameter flags` — no `--out` output-size
argument and no input-file-name arguments are ever appended. -/
theorem C10_noData_still_writes_json (w : Workflow) (sd wfn : String) (nt : Nat)
    (pc : String) (cw gw : Option String) (lk : Option (String × String)) :
    (createBenchmark w sd wfn nt pc cw gw lk DataSpec.noData).jsonPath
      = mkJsonPath sd wfn nt ∧
    (createBenchmark w sd wfn nt pc cw gw lk DataSpec.noData).written = [] ∧
    (createBenchmark w sd wfn nt pc cw gw lk DataSpec.noData).tasks
      = w.tasks.map (setTaskParams pc cw gw lk) ∧
    ∀ t ∈ (createBenchmark w sd wfn nt pc cw gw lk DataSpec.noData).tasks,
      t.files = [] ∧ t.args = t.name :: paramArgs pc cw gw (lockArgList lk) := by
  refine ⟨rfl, rfl, rfl, ?_⟩
  intro t ht
  simp only [createBenchmark, List.mem_map] at ht
  obtain ⟨t0, ht0, rfl⟩ := ht
  exact ⟨rfl, rfl⟩

/-- Claim C10, witness at the concrete workflow `wAB`. -/
theorem C10_witness :
    (createBenchmark wAB ("sv") ("wf") 2 ("0.6") none none none DataSpec.noData).written = [] ∧
    ∀ t ∈ (createBenchmark wAB ("sv") ("wf") 2 ("0.6") none none none DataSpec.noData).tasks,
      t.files = [] ∧ t.args = t.name :: paramArgs ("0.6") none none (lockArgList none) :=
  ⟨(C10_noData_still_writes_json wAB ("sv") ("wf") 2 ("0.6") none none none).2.1,
   (C10_noData_still_writes_json wAB ("sv") ("wf") 2 ("0.6") none none none).2.2.2⟩

/-! ### Claim C3 -/

/-- Claim C3: in per-category mode the OUTPUT records of every task are
consumer-sized — one record per child, named for the edge and sized by
the *child's* category byte size — and a childless task instead gets
exactly one self-named output sized by its own category. -/
theorem C3_consumer_sized_outputs (w : Workflow) (sd wfn : String) (nt : Nat)
    (pc : String) (cw gw : Option String) (lk : Option (String × String))
    (m : String → Int) :
    (createBenchmark w sd wfn nt pc cw gw lk (DataSpec.perCat m)).tasks
      = w.tasks.map
          (fun t0 => dataPhaseTask w (DataSpec.perCat m) (setTaskParams pc cw gw lk t0)) ∧
    ∀ t0 : WTask,
      (¬ w.children t0.name = [] →
        (dataPhaseTask w (DataSpec.perCat m) (setTaskParams pc cw gw lk t0)).files.filter
            (fun f => f.link = WLink.output)
          = (w.children t0.name).map
              (fun c => WFile.mk (edgeName t0.name c) (m (categoryOf w c)) WLink.output)) ∧
      (w.children t0.name = [] →
        (dataPhaseTask w (DataSpec.perCat m) (setTaskParams pc cw gw lk t0)).files.filter
            (fun f => f.link = WLink.output)
          = [WFile.mk (edgeName t0.name t0.name) (m t0.category) WLink.output]) := by
  refine ⟨rfl, ?_⟩
  intro t0
  constructor
  · intro hc
    by_cases hp : w.parents t0.name = [] <;>
      simp [dataPhaseTask, addInputsPerCat, addOutputsPerCat, addOutArgPerCat,
        setTaskParams, output_files_for, hp, hc, List.filter_map, Function.comp_def]
  · intro hc
    by_cases hp : w.parents t0.name = [] <;>
      simp [dataPhaseTask, addInputsPerCat, addOutputsPerCat, addOutArgPerCat,
        setTaskParams, output_files_for, hp, hc, List.filter_map, Function.comp_def]

/-- Claim C3, witness at `wAB`: `A` (one child `B`) gets the single edge
output sized by `B`'s category; the leaf `B` gets its self-named output
sized by its own category. -/
theorem C3_witness :
    (dataPhaseTask wAB (DataSpec.perCat dataAB)
        (setTaskParams ("0.6") none none none taskA)).files.filter
        (fun f => f.link = WLink.output)
      = (wAB.children taskA.name).map
          (fun c => WFile.mk (edgeName taskA.name c) (dataAB (categoryOf wAB c)) WLink.output) ∧
    (dataPhaseTask wAB (DataSpec.perCat dataAB)
        (setTaskParams ("0.6") none none none taskB)).files.filter
        (fun f => f.link = WLink.output)
      = [WFile.mk (edgeName taskB.name taskB.name) (dataAB taskB.category) WLink.output] :=
  ⟨((C3_consumer_sized_outputs wAB ("sv") ("wf") 2 ("0.6") none none none dataAB).2 taskA).1
      (by decide),
   ((C3_consumer_sized_outputs wAB ("sv") ("wf") 2 ("0.6") none none none dataAB).2 taskB).2
      (by decide)⟩

/-! ### Claim C7 -/

theorem sfxAppend {l l₁ l₂ : List Char} (h : l <:+ l₂) : l <:+ l₁ ++ l₂ := by
  obtain ⟨u, hu⟩ := h
  exact ⟨l₁ ++ u, by rw [List.append_assoc, hu]⟩

theorem infAppend {l l₁ l₂ : List Char} (h : l <:+: l₂) : l <:+: l₁ ++ l₂ := by
  obtain ⟨s, t, hst⟩ := h
  refine ⟨l₁ ++ s, t, ?_⟩
  rw [← hst]
  simp [List.append_assoc]

/-- Every root input name `f"{task}_input.txt"` matches `*input*.txt`. -/
theorem inputGlob_name (s : String) : inputGlob (s ++ inputTxt) = true := by
  simp only [inputGlob, strData_append, Bool.and_eq_true, decide_eq_true_eq]
  constructor
  · exact infAppend (by decide)
  · exact sfxAppend (by decide)

/-- Every uniform-mode output name `f"{task}_output.txt"` matches
`*output.txt`. -/
theorem outputGlob_name (s : String) : outputGlob (s ++ outputTxt) = true := by
  simp only [outputGlob, strData_append, decide_eq_true_eq]
  exact sfxAppend (by decide)

/-- Every per-edge output name `f"{p}_{c}_output.txt"` matches
`*output.txt`. -/
theorem outputGlob_edge (p c : String) : outputGlob (edgeName p c) = true := by
  unfold edgeName
  exact outputGlob_name (p ++ usep ++ c)

/-- Claim C7: whether a run ends normally or by exception, `run` calls
`cleanup_sys_files`, after which no file matching `*input*.txt` or
`*output.txt` remains in the working directory; and every file name the
assembler generates (root inputs, uniform outputs, per-edge outputs)
matches one of those patterns, so the run's filesystem footprint is
restored modulo logs. -/
theorem C7_cleanup_removes_generated (tasks : List WTask) (fsSeq : Nat → List String)
    (fuel : Nat) (dirAtEnd : List String) (crashed : Bool) :
    (∀ f ∈ (runExec tasks fsSeq fuel dirAtEnd crashed).finalDir,
        inputGlob f = false ∧ outputGlob f = false) ∧
    (∀ s c : String, inputGlob (s ++ inputTxt) = true ∧
        outputGlob (s ++ outputTxt) = true ∧ outputGlob (edgeName s c) = true) := by
  constructor
  · intro f hf
    have hdir : (runExec tasks fsSeq fuel dirAtEnd crashed).finalDir
        = cleanupSysFiles dirAtEnd := by
      unfold runExec
      cases crashed <;> rfl
    rw [hdir] at hf
    unfold cleanupSysFiles at hf
    have h2 := List.of_mem_filter hf
    simp only [Bool.not_eq_eq_eq_not, Bool.not_true, Bool.or_eq_false_iff] at h2
    exact h2
  · intro s c
    exact ⟨inputGlob_name s, outputGlob_name s, outputGlob_edge s c⟩

/-- Claim C7, witness: a concrete directory listing after a crashed run
keeps only the non-matching file. -/
theorem C7_witness :
    inputGlob ("run.log") = false ∧ outputGlob ("run.log") = false :=
  (C7_cleanup_removes_generated [] (fun _ => []) 0 ["x_output.txt", "run.log"] true).1
    ("run.log") (by decide)

/-! ### Claim C9 -/

/-- Shape of the `_generate_files` loop: a fold over the recipe
extensions only ever appends, appended files come from extensions not in
the pre-loop `extension_list` snapshot, and every missing extension with
a positive count contributes at least one file. -/
theorem genFold_shape (extList : List String) (numOf : String → Nat)
    (freshName : Nat → String) (sizeOf : String → Int) (link : WLink) :
    ∀ (l : List String) (st : GenState),
      ∃ new : List WFile,
        (l.foldl (genStep extList numOf freshName sizeOf link) st).files
          = st.files ++ new ∧
        (∀ f ∈ new, ∃ e, e ∈ l ∧ e ∉ extList ∧
          ∃ n, f = generateFile freshName sizeOf link n e) ∧
        (∀ e ∈ l, e ∉ extList → 1 ≤ numOf e →
          ∃ f ∈ new, ∃ n, f = generateFile freshName sizeOf link n e) := by
  intro l
  induction l with
  | nil =>
    intro st
    exact ⟨[], by simp, by simp, by simp⟩
  | cons e l ih =>
    intro st
    by_cases he : e ∈ extList
    · have hstep : genStep extList numOf freshName sizeOf link st e = st := by
        simp [genStep, he]
      obtain ⟨new, h1, h2, h3⟩ := ih st
      refine ⟨new, ?_, ?_, ?_⟩
      · rw [List.foldl_cons, hstep]
        exact h1
      · intro f hf
        obtain ⟨e', he'l, hne, hn⟩ := h2 f hf
        exact ⟨e', List.mem_cons_of_mem _ he'l, hne, hn⟩
      · intro e' he' hnot hnum
        rcases List.mem_cons.mp he' with rfl | hmem
        · exact absurd he hnot
        · exact h3 e' hmem hnot hnum
    · have hstep : genStep extList numOf freshName sizeOf link st e
          = GenState.mk
              (st.files ++ ((List.range (numOf e)).map
                (fun i => generateFile freshName sizeOf link (st.ctr + i) e)))
              (st.ctr + numOf e) := by
        simp [genStep, he]
      obtain ⟨new, h1, h2, h3⟩ := ih (GenState.mk
        (st.files ++ ((List.range (numOf e)).map
          (fun i => generateFile freshName sizeOf link (st.ctr + i) e)))
        (st.ctr + numOf e))
      refine ⟨((List.range (numOf e)).map
        (fun i => generateFile freshName sizeOf link (st.ctr + i) e)) ++ new, ?_, ?_, ?_⟩
      · rw [List.foldl_cons, hstep, h1]
        simp [List.append_assoc]
      · intro f hf
        rcases List.mem_append.mp hf with hb | hn
        · obtain ⟨i, _, rfl⟩ := List.mem_map.mp hb
          exact ⟨e, List.mem_cons_self _ _, he, st.ctr + i, rfl⟩
        · obtain ⟨e', he'l, hne, hn⟩ := h2 f hn
          exact ⟨e', List.mem_cons_of_mem _ he'l, hne, hn⟩
      · intro e' he' hnot hnum
        rcases List.mem_cons.mp he' with rfl | hmem
        · refine ⟨generateFile freshName sizeOf link (st.ctr + 0) e', ?_, st.ctr + 0, rfl⟩
          exact List.mem_append_left _
            (List.mem_map_of_mem _ (List.mem_range.mpr hnum))
        · obtain ⟨f, hfmem, hn⟩ := h3 e' hmem hnot hnum
          exact ⟨f, List.mem_append_right _ hfmem, hn⟩

/-- Claim C9: `_generate_files` only appends to the job's file list;
every freshly synthesized file carries the requested link and an
extension that is in the recipe but *not* among the extensions of files
already recorded for that link direction (so an extension inherited from
a parent output is never synthesized again); and every recipe extension
missing from the pre-existing files with a positive `num_files` gets a
fresh file. The hypothesis says fresh names (uuids) do not disturb the
extension: `extOf (freshName n ++ e) = e` for recipe extensions. -/
theorem C9_inherited_extension_not_regenerated (files0 : List WFile)
    (recipe : List String) (link : WLink) (numOf : String → Nat)
    (freshName : Nat → String) (sizeOf : String → Int)
    (hext : ∀ e ∈ recipe, ∀ n : Nat, extOf (freshName n ++ e) = e) :
    ∃ new : List WFile,
      generate_files files0 recipe link numOf freshName sizeOf = files0 ++ new ∧
      (∀ f ∈ new, f.link = link ∧ extOf f.name ∈ recipe ∧
        extOf f.name ∉ extensionList files0 link) ∧
      (∀ e ∈ recipe, e ∉ extensionList files0 link → 1 ≤ numOf e →
        ∃ f ∈ new, extOf f.name = e) := by
  obtain ⟨new, h1, h2, h3⟩ := genFold_shape (extensionList files0 link) numOf freshName
    sizeOf link recipe (GenState.mk files0 0)
  refine ⟨new, h1, ?_, ?_⟩
  · intro f hf
    obtain ⟨e, hel, hne, n, rfl⟩ := h2 f hf
    have hx : extOf (generateFile freshName sizeOf link n e).name = e := hext e hel n
    refine ⟨rfl, ?_, ?_⟩
    · rw [hx]
      exact hel
    · rw [hx]
      exact hne
  · intro e he hnot hnum
    obtain ⟨f, hfmem, n, rfl⟩ := h3 e he hnot hnum
    exact ⟨_, hfmem, hext e he n⟩

/-- Claim C9, witness: with an inherited `.txt` input already present,
only the missing `.dat` extension is synthesized. -/
theorem C9_witness :
    ∃ new : List WFile,
      generate_files [⟨"abc.txt", 3, WLink.input⟩] [".txt", ".dat"] WLink.input
          (fun _ => 1) (fun _ => "u") (fun _ => 9)
        = [⟨"abc.txt", 3, WLink.input⟩] ++ new ∧
      (∀ f ∈ new, f.link = WLink.input ∧ extOf f.name ∈ [".txt", ".dat"] ∧
        extOf f.name ∉ extensionList [⟨"abc.txt", 3, WLink.input⟩] WLink.input) ∧
      (∀ e ∈ [".txt", ".dat"],
        e ∉ extensionList [⟨"abc.txt", 3, WLink.input⟩] WLink.input → 1 ≤ (fun _ => 1) e →
        ∃ f ∈ new, extOf f.name = e) :=
  C9_inherited_extension_not_regenerated [⟨"abc.txt", 3, WLink.input⟩] [".txt", ".dat"]
    WLink.input (fun _ => 1) (fun _ => "u") (fun _ => 9)
    (by
      intro e he n
      simp only [List.mem_cons, List.not_mem_nil, or_false] at he
      rcases he with rfl | rfl
      · exact (by decide : extOf ("u" ++ ".txt") = ".txt")
      · exact (by decide : extOf ("u" ++ ".dat") = ".dat"))

/-! ### Claim C5 -/

/-- Executor loop invariant: the launched-marker list is duplicate-free,
spawned processes correspond one-to-one (by task name, in order) to the
launched markers, and only known task names are launched. -/
def ExecInv (names : List String) (st : ExecState) : Prop :=
  st.executed.Nodup ∧ st.procs.map Prod.fst = st.executed ∧
    ∀ n ∈ st.executed, n ∈ names

theorem pollStep_inv {names : List String} {fs : List String} {st : ExecState}
    {t : WTask} (hin : t.name ∈ names) (h : ExecInv names st) :
    ExecInv names (pollStep fs st t) := by
  obtain ⟨h1, h2, h3⟩ := h
  unfold pollStep
  by_cases hmem : t.name ∈ st.executed
  · rw [if_pos hmem]
    exact ⟨h1, h2, h3⟩
  · rw [if_neg hmem]
    by_cases hr : readyToExecute fs t = true
    · simp only [hr, if_true]
      refine ⟨?_, ?_, ?_⟩
      · rw [List.nodup_append]
        refine ⟨h1, List.nodup_singleton _, ?_⟩
        intro a ha hb
        rw [List.mem_singleton] at hb
        subst hb
        exact hmem ha
      · rw [List.map_append, h2]
        rfl
      · intro n hn
        rcases List.mem_append.mp hn with h4 | h4
        · exact h3 n h4
        · rw [List.mem_singleton] at h4
          subst h4
          exact hin
    · simp only [hr, if_false]
      exact ⟨h1, h2, h3⟩

theorem pollCycle_inv {names : List String} {fs : List String} :
    ∀ (l : List WTask) (st : ExecState), (∀ t ∈ l, t.name ∈ names) →
      ExecInv names st → ExecInv names (l.foldl (pollStep fs) st) := by
  intro l
  induction l with
  | nil => intro st _ h; exact h
  | cons t l ih =>
    intro st hsub h
    rw [List.foldl_cons]
    exact ih _ (fun u hu => hsub u (List.mem_cons_of_mem _ hu))
      (pollStep_inv (hsub t (List.mem_cons_self _ _)) h)

theorem runLoop_inv {tasks : List WTask} {fsSeq : Nat → List String} :
    ∀ (fuel k : Nat) (st : ExecState),
      ExecInv (tasks.map (fun t => t.name)) st →
      ExecInv (tasks.map (fun t => t.name)) (runLoop tasks fsSeq fuel k st) := by
  intro fuel
  induction fuel with
  | zero => intro k st h; exact h
  | succ fuel ih =>
    intro k st h
    unfold runLoop
    by_cases hg : st.executed.length < tasks.length
    · rw [if_pos hg]
      exact ih _ _ (pollCycle_inv tasks st
        (fun t ht => List.mem_map_of_mem _ ht) h)
    · rw [if_neg hg]
      exact h

theorem waitAll_id (procs : List (String × List String)) : waitAll procs = procs := by
  have key : ∀ (l acc : List (String × List String)),
      l.foldl (fun a p => a ++ [p]) acc = acc ++ l := by
    intro l
    induction l with
    | nil => intro acc; simp
    | cons p l ih =>
      intro acc
      rw [List.foldl_cons, ih]
      simp
  rw [waitAll, key]
  rfl

/-- Claim C5: starting from the empty state, after any number of poll
cycles the spawned process list has pairwise-distinct task names (no
task is ever spawned twice — once marked launched it is skipped), the
spawned processes correspond exactly to the launched markers, the
`while` guard `len(has_executed) < len(tasks)` is false exactly when
every task has been launched, and the final wait pass waits on every
spawned process. -/
theorem C5_spawn_once_and_guard (tasks : List WTask) (fsSeq : Nat → List String)
    (fuel : Nat) (hnodup : (tasks.map (fun t => t.name)).Nodup) :
    ((runLoop tasks fsSeq fuel 0 (ExecState.mk [] [])).procs.map Prod.fst).Nodup ∧
    (runLoop tasks fsSeq fuel 0 (ExecState.mk [] [])).procs.map Prod.fst
      = (runLoop tasks fsSeq fuel 0 (ExecState.mk [] [])).executed ∧
    (¬ (runLoop tasks fsSeq fuel 0 (ExecState.mk [] [])).executed.length < tasks.length ↔
      ∀ t ∈ tasks, t.name ∈ (runLoop tasks fsSeq fuel 0 (ExecState.mk [] [])).executed) ∧
    waitAll (runLoop tasks fsSeq fuel 0 (ExecState.mk [] [])).procs
      = (runLoop tasks fsSeq fuel 0 (ExecState.mk [] [])).procs := by
  have hinv : ExecInv (tasks.map (fun t => t.name))
      (runLoop tasks fsSeq fuel 0 (ExecState.mk [] [])) :=
    runLoop_inv fuel 0 _ ⟨List.nodup_nil, rfl, by intro n hn; exact absurd hn (List.not_mem_nil n)⟩
  obtain ⟨h1, h2, h3⟩ := hinv
  refine ⟨by rw [h2]; exact h1, h2, ?_, waitAll_id _⟩
  have hcard1 : (runLoop tasks fsSeq fuel 0 (ExecState.mk [] [])).executed.toFinset.card
      = (runLoop tasks fsSeq fuel 0 (ExecState.mk [] [])).executed.length :=
    List.toFinset_card_of_nodup h1
  have hcard2 : (tasks.map (fun t => t.name)).toFinset.card
      = (tasks.map (fun t => t.name)).length :=
    List.toFinset_card_of_nodup hnodup
  constructor
  · intro hlen t ht
    have hsub : (runLoop tasks fsSeq fuel 0 (ExecState.mk [] [])).executed.toFinset
        ⊆ (tasks.map (fun t => t.name)).toFinset := by
      intro x hx
      exact List.mem_toFinset.mpr (h3 x (List.mem_toFinset.mp hx))
    have hle : (tasks.map (fun t => t.name)).toFinset.card
        ≤ (runLoop tasks fsSeq fuel 0 (ExecState.mk [] [])).executed.toFinset.card := by
      rw [hcard1, hcard2, List.length_map]
      exact not_lt.mp hlen
    have heq := Finset.eq_of_subset_of_card_le hsub hle
    have hmem : t.name ∈ (tasks.map (fun t => t.name)).toFinset :=
      List.mem_toFinset.mpr (List.mem_map_of_mem _ ht)
    rw [← heq] at hmem
    exact List.mem_toFinset.mp hmem
  · intro hall
    have hsub2 : (tasks.map (fun t => t.name)).toFinset
        ⊆ (runLoop tasks fsSeq fuel 0 (ExecState.mk [] [])).executed.toFinset := by
      intro x hx
      obtain ⟨t, ht, rfl⟩ := List.mem_map.mp (List.mem_toFinset.mp hx)
      exact List.mem_toFinset.mpr (hall t ht)
    have hcards := Finset.card_le_card hsub2
    rw [hcard1, hcard2, List.length_map] at hcards
    omega

/-- Root task for the executor witness run. -/
def execA : WTask :=
  ⟨"A", "c", 0, ["A"], [⟨"A_input.txt", 1, WLink.input⟩, ⟨"A_output.txt", 1, WLink.output⟩], "p"⟩

/-- Dependent task for the executor witness run. -/
def execB : WTask :=
  ⟨"B", "c", 0, ["B"], [⟨"A_output.txt", 1, WLink.input⟩, ⟨"B_output.txt", 1, WLink.output⟩], "p"⟩

/-- Filesystem snapshots for the executor witness run: `A`'s output
appears from cycle 1 on. -/
def fsSeqEx : Nat → List String :=
  fun k => if k = 0 then ["A_input.txt"] else ["A_input.txt", "A_output.txt"]

/-- Claim C5, witness: a concrete two-task run. -/
theorem C5_witness :
    ((runLoop [execA, execB] fsSeqEx 5 0 (ExecState.mk [] [])).procs.map Prod.fst).Nodup ∧
    (runLoop [execA, execB] fsSeqEx 5 0 (ExecState.mk [] [])).procs.map Prod.fst
      = (runLoop [execA, execB] fsSeqEx 5 0 (ExecState.mk [] [])).executed ∧
    (¬ (runLoop [execA, execB] fsSeqEx 5 0 (ExecState.mk [] [])).executed.length
        < ([execA, execB] : List WTask).length ↔
      ∀ t ∈ ([execA, execB] : List WTask),
        t.name ∈ (runLoop [execA, execB] fsSeqEx 5 0 (ExecState.mk [] [])).executed) ∧
    waitAll (runLoop [execA, execB] fsSeqEx 5 0 (ExecState.mk [] [])).procs
      = (runLoop [execA, execB] fsSeqEx 5 0 (ExecState.mk [] [])).procs :=
  C5_spawn_once_and_guard [execA, execB] fsSeqEx 5 (by decide)

/-! ### Claim C2 -/

/-- All file records across a task list, in order. -/
def allFiles (ts : List WTask) : List WFile := ts.flatMap (fun t => t.files)

/-- All file names across a task list (with multiplicity). -/
def allFileNames (ts : List WTask) : List String :=
  (allFiles ts).map (fun f => f.name)

/-- Size of the file with a given name (first match), 0 if absent. -/
def sizeOfName (ts : List WTask) (n : String) : Int :=
  match (allFiles ts).find? (fun f => f.name = n) with
  | some f => f.size
  | none => 0

/-- Sum of the sizes of the distinct (by name) files of a task list —
each physical artifact counted once even when a producer and a consumer
both declare it. -/
def sumDistinctSizes (ts : List WTask) : Int :=
  ((allFileNames ts).dedup.map (sizeOfName ts)).sum

/-- Names of the per-task outputs of uniform mode. -/
def outNames (w : Workflow) : List String :=
  w.tasks.map (fun t => t.name ++ outputTxt)

/-- Names of the root inputs of uniform mode. -/
def inNames (w : Workflow) : List String :=
  (rootTasks w).map (fun t => t.name ++ inputTxt)

theorem calculateInputFiles_eq (w : Workflow) :
    calculateInputFiles w
      = ((rootTasks w).length, (rootTasks w).length * 2 + (nonRootTasks w).length) := by
  have key : ∀ (l : List WTask) (a b : Nat),
      l.foldl (fun (acc : Nat × Nat) t =>
          if w.parents t.name = [] then (acc.1 + 1, acc.2) else (acc.1, acc.2 + 1)) (a, b)
        = (a + (l.filter (fun t => w.parents t.name = [])).length,
            b + (l.filter (fun t => ¬ w.parents t.name = [])).length) := by
    intro l
    induction l with
    | nil => intro a b; simp
    | cons t l ih =>
      intro a b
      rw [List.foldl_cons]
      by_cases hp : w.parents t.name = []
      · rw [if_pos hp, ih]
        simp only [List.filter_cons, hp]
        simp
        omega
      · rw [if_neg hp, ih]
        simp only [List.filter_cons, hp]
        simp
        omega
  unfold calculateInputFiles rootTasks nonRootTasks
  rw [key]
  simp

theorem filter_partition_length (l : List WTask) (p : WTask → Bool) :
    (l.filter p).length + (l.filter (fun t => !(p t))).length = l.length := by
  induction l with
  | nil => simp
  | cons t l ih =>
    by_cases hp : p t = true <;>
      simp only [List.filter_cons, hp] <;> simp [hp] <;> omega

theorem totalFiles_pos (w : Workflow) (hne : w.tasks ≠ []) :
    0 < (calculateInputFiles w).2 := by
  rw [calculateInputFiles_eq]
  have hpart := filter_partition_length w.tasks (fun t => w.parents t.name = [])
  have hlen : 0 < w.tasks.length := List.length_pos.mpr hne
  unfold rootTasks nonRootTasks
  simp only [decide_not] at hpart ⊢
  omega

theorem uniformFiles_root (w : Workflow) (fs : Int) (pc : String)
    (cw gw : Option String) (lk : Option (String × String)) (t0 : WTask)
    (hp : w.parents t0.name = []) :
    (uniformTask w fs (setTaskParams pc cw gw lk t0)).files
      = [WFile.mk (t0.name ++ outputTxt) fs WLink.output,
          WFile.mk (t0.name ++ inputTxt) fs WLink.input] := by
  simp [uniformTask, setTaskParams, hp]

theorem uniformFiles_nonroot (w : Workflow) (fs : Int) (pc : String)
    (cw gw : Option String) (lk : Option (String × String)) (t0 : WTask)
    (hp : ¬ w.parents t0.name = []) :
    (uniformTask w fs (setTaskParams pc cw gw lk t0)).files
      = WFile.mk (t0.name ++ outputTxt) fs WLink.output
          :: (w.parents t0.name).map (fun p => WFile.mk (p ++ outputTxt) fs WLink.input) := by
  simp [uniformTask, setTaskParams, hp]

/-- Every file record created in uniform mode has the uniform size. -/
theorem uniform_allFiles_size (w : Workflow) (sd wfn : String) (nt : Nat)
    (pc : String) (cw gw : Option String) (lk : Option (String × String)) (mb : Int) :
    ∀ f ∈ allFiles (createBenchmark w sd wfn nt pc cw gw lk (DataSpec.total mb)).tasks,
      f.size = uniformFileSize w mb := by
  intro f hf
  have htasks : (createBenchmark w sd wfn nt pc cw gw lk (DataSpec.total mb)).tasks
      = w.tasks.map
          (fun t0 => dataPhaseTask w (DataSpec.total mb) (setTaskParams pc cw gw lk t0)) := rfl
  rw [allFiles, htasks] at hf
  simp only [List.mem_flatMap] at hf
  obtain ⟨t, ht, hft⟩ := hf
  simp only [List.mem_map] at ht
  obtain ⟨t0, ht0, rfl⟩ := ht
  by_cases hp : w.parents t0.name = []
  · rw [show dataPhaseTask w (DataSpec.total mb) (setTaskParams pc cw gw lk t0)
        = uniformTask w (uniformFileSize w mb) (setTaskParams pc cw gw lk t0) from rfl,
      uniformFiles_root w _ pc cw gw lk t0 hp] at hft
    rcases List.mem_cons.mp hft with rfl | hft2
    · rfl
    · rcases List.mem_singleton.mp hft2 with rfl
      rfl
  · rw [show dataPhaseTask w (DataSpec.total mb) (setTaskParams pc cw gw lk t0)
        = uniformTask w (uniformFileSize w mb) (setTaskParams pc cw gw lk t0) from rfl,
      uniformFiles_nonroot w _ pc cw gw lk t0 hp] at hft
    rcases List.mem_cons.mp hft with rfl | hft2
    · rfl
    · obtain ⟨p, hpm, rfl⟩ := List.mem_map.mp hft2
      rfl

theorem dataPhase_total_eq (w : Workflow) (mb : Int) (pc : String)
    (cw gw : Option String) (lk : Option (String × String)) (t0 : WTask) :
    dataPhaseTask w (DataSpec.total mb) (setTaskParams pc cw gw lk t0)
      = uniformTask w (uniformFileSize w mb) (setTaskParams pc cw gw lk t0) := rfl

/-- In uniform mode the set of file names across the graph is exactly
the per-task outputs plus the root inputs: every non-root input name
reuses its parent's output name. -/
theorem uniform_names_toFinset (w : Workflow) (sd wfn : String) (nt : Nat)
    (pc : String) (cw gw : Option String) (lk : Option (String × String))
    (mb : Int) (hwf : WFHyp w) :
    (allFileNames (createBenchmark w sd wfn nt pc cw gw lk (DataSpec.total mb)).tasks).toFinset
      = (outNames w ++ inNames w).toFinset := by
  obtain ⟨hnodup, hpar, hchi, hcons, hpnd, hcnd⟩ := hwf
  have htasks : (createBenchmark w sd wfn nt pc cw gw lk (DataSpec.total mb)).tasks
      = w.tasks.map
          (fun t0 => dataPhaseTask w (DataSpec.total mb) (setTaskParams pc cw gw lk t0)) := rfl
  apply Finset.ext
  intro x
  simp only [List.mem_toFinset]
  constructor
  · intro hx
    rw [allFileNames] at hx
    obtain ⟨f, hf, rfl⟩ := List.mem_map.mp hx
    rw [allFiles, htasks] at hf
    simp only [List.mem_flatMap, List.mem_map] at hf
    obtain ⟨t, ⟨t0, ht0, rfl⟩, hft⟩ := hf
    by_cases hp : w.parents t0.name = []
    · rw [dataPhase_total_eq, uniformFiles_root w _ pc cw gw lk t0 hp] at hft
      rcases List.mem_cons.mp hft with rfl | hft2
      · exact List.mem_append_left _ (List.mem_map_of_mem _ ht0)
      · rcases List.mem_singleton.mp hft2 with rfl
        apply List.mem_append_right
        refine List.mem_map_of_mem _ ?_
        rw [rootTasks, List.mem_filter]
        exact ⟨ht0, by simp [hp]⟩
    · rw [dataPhase_total_eq, uniformFiles_nonroot w _ pc cw gw lk t0 hp] at hft
      rcases List.mem_cons.mp hft with rfl | hft2
      · exact List.mem_append_left _ (List.mem_map_of_mem _ ht0)
      · obtain ⟨p, hpm, rfl⟩ := List.mem_map.mp hft2
        have hpn := hpar t0 ht0 p hpm
        rw [taskNames] at hpn
        obtain ⟨u, hu, rfl⟩ := List.mem_map.mp hpn
        exact List.mem_append_left _ (List.mem_map_of_mem _ hu)
  · intro hx
    rw [allFileNames]
    rcases List.mem_append.mp hx with hox | hix
    · obtain ⟨t0, ht0, rfl⟩ := List.mem_map.mp hox
      apply List.mem_map.mpr
      refine ⟨WFile.mk (t0.name ++ outputTxt) (uniformFileSize w mb) WLink.output, ?_, rfl⟩
      rw [allFiles, htasks]
      apply List.mem_flatMap.mpr
      refine ⟨_, List.mem_map_of_mem _ ht0, ?_⟩
      by_cases hp : w.parents t0.name = []
      · rw [dataPhase_total_eq, uniformFiles_root w _ pc cw gw lk t0 hp]
        exact List.mem_cons_self _ _
      · rw [dataPhase_total_eq, uniformFiles_nonroot w _ pc cw gw lk t0 hp]
        exact List.mem_cons_self _ _
    · obtain ⟨t0, ht0, rfl⟩ := List.mem_map.mp hix
      have ht0' : t0 ∈ w.tasks := (List.mem_filter.mp ht0).1
      have hp : w.parents t0.name = [] := by
        have h2 := (List.mem_filter.mp ht0).2
        simpa using h2
      apply List.mem_map.mpr
      refine ⟨WFile.mk (t0.name ++ inputTxt) (uniformFileSize w mb) WLink.input, ?_, rfl⟩
      rw [allFiles, htasks]
      apply List.mem_flatMap.mpr
      refine ⟨_, List.mem_map_of_mem _ ht0', ?_⟩
      rw [dataPhase_total_eq, uniformFiles_root w _ pc cw gw lk t0 hp]
      exact List.mem_cons_of_mem _ (List.mem_singleton.mpr rfl)

theorem outNames_inNames_nodup (w : Workflow) (hnodup : (taskNames w).Nodup) :
    (outNames w ++ inNames w).Nodup := by
  rw [List.nodup_append]
  refine ⟨?_, ?_, ?_⟩
  · have hrw : outNames w = (taskNames w).map (fun n => n ++ outputTxt) := by
      rw [outNames, taskNames, List.map_map]
      rfl
    rw [hrw]
    exact List.Nodup.map (fun a b h => strAppend_right_cancel h) hnodup
  · have hsub : List.Sublist ((rootTasks w).map (fun t => t.name)) (taskNames w) := by
      rw [taskNames, rootTasks]
      exact (List.filter_sublist _).map _
    have hnn : ((rootTasks w).map (fun t => t.name)).Nodup := hnodup.sublist hsub
    have hrw : inNames w = ((rootTasks w).map (fun t => t.name)).map (fun n => n ++ inputTxt) := by
      rw [inNames, List.map_map]
      rfl
    rw [hrw]
    exact List.Nodup.map (fun a b h => strAppend_right_cancel h) hnn
  · intro x hxo hxi
    obtain ⟨t1, _, rfl⟩ := List.mem_map.mp hxo
    obtain ⟨t2, _, heq⟩ := List.mem_map.mp hxi
    exact outName_ne_inName t1.name t2.name heq.symm

theorem sum_map_const_int (l : List String) (g : String → Int) (v : Int)
    (h : ∀ x ∈ l, g x = v) : (l.map g).sum = (l.length : Int) * v := by
  induction l with
  | nil => simp
  | cons x l ih =>
    rw [List.map_cons, List.sum_cons,
      ih (fun y hy => h y (List.mem_cons_of_mem _ hy)), h x (List.mem_cons_self _ _)]
    simp only [List.length_cons]
    push_cast
    ring

theorem sizeOfName_of_mem (ts : List WTask) (n : String) (v : Int)
    (hn : n ∈ allFileNames ts)
    (hall : ∀ f ∈ allFiles ts, f.size = v) : sizeOfName ts n = v := by
  obtain ⟨f, hf, rfl⟩ := List.mem_map.mp hn
  rw [sizeOfName]
  cases hfind : (allFiles ts).find? (fun g => g.name = f.name) with
  | none =>
    have h2 := List.find?_eq_none.mp hfind f hf
    simp at h2
  | some g =>
    exact hall g (List.mem_of_find?_eq_some hfind)

/-- Claim C2: uniform-footprint mode computes
`totalFiles = 2*roots + nonRoots`, sizes every file record it creates at
`round(mb * 10^6 / totalFiles)` (exact rational division, Python
banker's rounding), and the sum of the distinct (by name) file sizes is
within half a byte per file — `2*|sum - mb*10^6| ≤ totalFiles` — of the
requested footprint. -/
theorem C2_uniform_footprint (w : Workflow) (sd wfn : String) (nt : Nat)
    (pc : String) (cw gw : Option String) (lk : Option (String × String))
    (mb : Int) (hwf : WFHyp w) (hne : w.tasks ≠ []) :
    (calculateInputFiles w).1 = (rootTasks w).length ∧
    (calculateInputFiles w).2 = 2 * (rootTasks w).length + (nonRootTasks w).length ∧
    uniformFileSize w mb
      = pyRound (((mb * 1000000 : Int) : Rat) / (((calculateInputFiles w).2 : Nat) : Rat)) ∧
    (∀ t ∈ (createBenchmark w sd wfn nt pc cw gw lk (DataSpec.total mb)).tasks,
      ∀ f ∈ t.files, f.size = uniformFileSize w mb) ∧
    (sumDistinctSizes (createBenchmark w sd wfn nt pc cw gw lk (DataSpec.total mb)).tasks
        - mb * 1000000).natAbs * 2 ≤ (calculateInputFiles w).2 := by
  have hN := calculateInputFiles_eq w
  refine ⟨by rw [hN], by rw [hN]; ring, ?_, ?_, ?_⟩
  · rw [uniformFileSize, Rat.divInt_eq_div]
    norm_cast
  · intro t ht f hf
    apply uniform_allFiles_size w sd wfn nt pc cw gw lk mb
    rw [allFiles]
    exact List.mem_flatMap.mpr ⟨t, ht, hf⟩
  · have hlen : (allFileNames
        (createBenchmark w sd wfn nt pc cw gw lk (DataSpec.total mb)).tasks).dedup.length
        = (calculateInputFiles w).2 := by
      have h1 : (allFileNames
          (createBenchmark w sd wfn nt pc cw gw lk (DataSpec.total mb)).tasks).dedup.length
          = (allFileNames
              (createBenchmark w sd wfn nt pc cw gw lk (DataSpec.total mb)).tasks).toFinset.card :=
        (List.card_toFinset _).symm
      rw [h1, uniform_names_toFinset w sd wfn nt pc cw gw lk mb hwf,
        List.toFinset_card_of_nodup (outNames_inNames_nodup w hwf.1),
        List.length_append, outNames, inNames, List.length_map, List.length_map, hN]
      have hpart := filter_partition_length w.tasks
        (fun t => decide (w.parents t.name = []))
      have hroot_eq : rootTasks w
          = w.tasks.filter (fun t => decide (w.parents t.name = [])) := rfl
      have hnr : nonRootTasks w
          = w.tasks.filter (fun t => !(decide (w.parents t.name = []))) := by
        rw [nonRootTasks]
        congr 1
        funext t
        exact decide_not
      rw [hroot_eq, hnr]
      omega
    have hsizes := uniform_allFiles_size w sd wfn nt pc cw gw lk mb
    have hsum : sumDistinctSizes
        (createBenchmark w sd wfn nt pc cw gw lk (DataSpec.total mb)).tasks
        = (((calculateInputFiles w).2 : Nat) : Int) * uniformFileSize w mb := by
      rw [sumDistinctSizes, sum_map_const_int _ _ (uniformFileSize w mb)
        (fun n hn => sizeOfName_of_mem _ n _ (List.mem_dedup.mp hn) hsizes), hlen]
    set N := (calculateInputFiles w).2 with hNdef
    set fs := uniformFileSize w mb with hfsdef
    have hN0 : 0 < N := totalFiles_pos w hne
    have hNQ : (0 : Rat) < ((N : Nat) : Rat) := by exact_mod_cast hN0
    have habs := pyRound_sub_abs_le (Rat.divInt (mb * 1000000) ((N : Nat) : Int))
    have hq : (fs : Rat) = ((pyRound (Rat.divInt (mb * 1000000) ((N : Nat) : Int)) : Int) : Rat) := by
      rw [hfsdef, uniformFileSize]
    rw [← hq] at habs
    have hdiv : Rat.divInt (mb * 1000000) ((N : Nat) : Int)
        = ((mb * 1000000 : Int) : Rat) / ((N : Nat) : Rat) := by
      rw [Rat.divInt_eq_div]
      norm_cast
    rw [hdiv] at habs
    have hmul : |((N : Nat) : Rat) * (fs : Rat) - ((mb * 1000000 : Int) : Rat)|
        ≤ ((N : Nat) : Rat) / 2 := by
      have h1 : ((N : Nat) : Rat) * ((fs : Rat) - ((mb * 1000000 : Int) : Rat) / ((N : Nat) : Rat))
          = ((N : Nat) : Rat) * (fs : Rat) - ((mb * 1000000 : Int) : Rat) := by
        field_simp
        ring
      calc |((N : Nat) : Rat) * (fs : Rat) - ((mb * 1000000 : Int) : Rat)|
          = |((N : Nat) : Rat)| * |(fs : Rat) - ((mb * 1000000 : Int) : Rat) / ((N : Nat) : Rat)| := by
            rw [← h1, abs_mul]
        _ ≤ |((N : Nat) : Rat)| * (1/2) :=
            mul_le_mul_of_nonneg_left habs (abs_nonneg _)
        _ = ((N : Nat) : Rat) / 2 := by
            rw [abs_of_pos hNQ]
            ring
    have hz : |((N : Nat) : Int) * fs - mb * 1000000| * 2 ≤ ((N : Nat) : Int) := by
      have hcast : ((|((N : Nat) : Int) * fs - mb * 1000000| * 2 : Int) : Rat)
          ≤ (((N : Nat) : Int) : Rat) := by
        push_cast
        push_cast at hmul
        linarith [hmul]
      exact_mod_cast hcast
    rw [hsum]
    rw [Int.abs_eq_natAbs] at hz
    omega

/-- Claim C2, witness at `wAB` with a 1 MB footprint: totalFiles is 3,
every file is `round(10^6/3) = 333333` bytes, and the distinct files sum
to 999999 bytes, within the allowed slack. -/
theorem C2_witness :
    (calculateInputFiles wAB).1 = (rootTasks wAB).length ∧
    (calculateInputFiles wAB).2 = 2 * (rootTasks wAB).length + (nonRootTasks wAB).length ∧
    uniformFileSize wAB 1
      = pyRound (((1 * 1000000 : Int) : Rat) / (((calculateInputFiles wAB).2 : Nat) : Rat)) ∧
    (∀ t ∈ (createBenchmark wAB ("sv") ("wf") 2 ("0.6") none none none (DataSpec.total 1)).tasks,
      ∀ f ∈ t.files, f.size = uniformFileSize wAB 1) ∧
    (sumDistinctSizes
        (createBenchmark wAB ("sv") ("wf") 2 ("0.6") none none none (DataSpec.total 1)).tasks
        - 1 * 1000000).natAbs * 2 ≤ (calculateInputFiles wAB).2 :=
  C2_uniform_footprint wAB ("sv") ("wf") 2 ("0.6") none none none 1 (by decide) (by decide)
